import Mathlib

/-!
Verification development for the TCMB exchange-rate retrieval pipeline.

This file gives a shallow embedding of the core of the repository
(`tcmb_mcp`): the business-day calendar (`core/holidays.py`), the URL
helpers (`core/constants.py`), the XML bulletin parser
(`utils/xml_parser.py`), the rate model (`models/schemas.py`), the SQLite
cache (`services/cache_service.py`) and the fetch client
(`services/tcmb_client.py`), followed by theorems settling the stated
properties of that code.

Modelling conventions:
* Python `date` objects are embedded as year/month/day triples of
  integers; `timedelta` arithmetic is carried out on the proleptic
  Gregorian day number (the standard civil-date conversion used by
  CPython's `datetime`), so stepping a date by one day is stepping its
  day number by one.
* Python `Decimal` values are embedded as exact rationals `ℚ`.  Every
  decimal literal parsed by this code denotes an exact rational, and the
  divisions performed (by the unit values 1 and 100) are exact at the
  operand sizes the system produces, so `Decimal` arithmetic coincides
  with `ℚ` arithmetic on them.
* Fallible Python code is embedded with `Option`/`Except`; a raised
  exception is an `Except.error`.
* `async` functions are embedded as pure functions of their inputs plus
  explicit oracles for the network (`String → …` on the request URL, or
  `Nat → …` on the attempt index); sleeps are recorded in an output
  trace rather than performed.
-/

deriving instance DecidableEq for Except

namespace TcmbSpec

/-! ## Civil-date arithmetic (embedding of Python `datetime.date`)

`toDays`/`ofDays` convert between a year/month/day triple and the number
of days since 1970-01-01 in the proleptic Gregorian calendar (the civil
calendar used by CPython `date`).  `Int.fdiv` (floor division) is used
throughout so the conversion is total on all integers. -/

structure Date where
  year : Int
  month : Int
  day : Int
deriving DecidableEq

/-- Days since 1970-01-01 of a civil date (proleptic Gregorian). -/
def toDays (dt : Date) : Int :=
  let y := if dt.month ≤ 2 then dt.year - 1 else dt.year
  let era := Int.fdiv y 400
  let yoe := y - era * 400
  let mp := if dt.month > 2 then dt.month - 3 else dt.month + 9
  let doy := Int.fdiv (153 * mp + 2) 5 + dt.day - 1
  let doe := yoe * 365 + Int.fdiv yoe 4 - Int.fdiv yoe 100 + doy
  era * 146097 + doe - 719468

/-- Civil date of a count of days since 1970-01-01 (proleptic Gregorian). -/
def ofDays (z0 : Int) : Date :=
  let z := z0 + 719468
  let era := Int.fdiv z 146097
  let doe := z - era * 146097
  let yoe := Int.fdiv (doe - Int.fdiv doe 1460 + Int.fdiv doe 36524 - Int.fdiv doe 146096) 365
  let y := yoe + era * 400
  let doy := doe - (365 * yoe + Int.fdiv yoe 4 - Int.fdiv yoe 100)
  let mp := Int.fdiv (5 * doy + 2) 153
  let d := doy - Int.fdiv (153 * mp + 2) 5 + 1
  let m := if mp < 10 then mp + 3 else mp - 9
  ⟨if m ≤ 2 then y + 1 else y, m, d⟩

/-- Python `date.weekday()`: Monday = 0 … Sunday = 6.
1970-01-01 (day number 0) was a Thursday (= 3). -/
def weekday (dt : Date) : Int :=
  (toDays dt + 3).emod 7

/-! ## Business-day calendar (embedding of `core/holidays.py`) -/

/-- `FIXED_HOLIDAYS` from `core/holidays.py`: recurring (month, day) pairs. -/
def FIXED_HOLIDAYS : List (Int × Int) :=
  [(1, 1), (4, 23), (5, 1), (5, 19), (7, 15), (8, 30), (10, 29)]

/-- Keys of the `RELIGIOUS_HOLIDAYS` dict from `core/holidays.py`
(the holiday names are irrelevant to membership). -/
def RELIGIOUS_HOLIDAYS : List Date :=
  [⟨2024, 4, 10⟩, ⟨2024, 4, 11⟩, ⟨2024, 4, 12⟩,
   ⟨2024, 6, 16⟩, ⟨2024, 6, 17⟩, ⟨2024, 6, 18⟩, ⟨2024, 6, 19⟩,
   ⟨2025, 3, 30⟩, ⟨2025, 3, 31⟩, ⟨2025, 4, 1⟩,
   ⟨2025, 6, 6⟩, ⟨2025, 6, 7⟩, ⟨2025, 6, 8⟩, ⟨2025, 6, 9⟩,
   ⟨2026, 3, 20⟩, ⟨2026, 3, 21⟩, ⟨2026, 3, 22⟩,
   ⟨2026, 5, 27⟩, ⟨2026, 5, 28⟩, ⟨2026, 5, 29⟩, ⟨2026, 5, 30⟩]

/-- `is_weekend`: Saturday (5) or Sunday (6). -/
def isWeekend (dt : Date) : Bool :=
  weekday dt ≥ 5

/-- `is_fixed_holiday`, generalized over the table contents. -/
def isFixedHolidayWith (fixed : List (Int × Int)) (dt : Date) : Bool :=
  fixed.any fun p => decide (p = (dt.month, dt.day))

/-- `is_religious_holiday`, generalized over the table contents. -/
def isReligiousHolidayWith (religious : List Date) (dt : Date) : Bool :=
  religious.any fun x => decide (x = dt)

/-- `is_holiday`, generalized over both tables: weekend OR fixed OR religious. -/
def isHolidayWith (fixed : List (Int × Int)) (religious : List Date) (dt : Date) : Bool :=
  isWeekend dt || isFixedHolidayWith fixed dt || isReligiousHolidayWith religious dt

/-- `is_holiday` from `core/holidays.py`, with the tables of the source. -/
def isHoliday (dt : Date) : Bool :=
  isHolidayWith FIXED_HOLIDAYS RELIGIOUS_HOLIDAYS dt

/-- `is_holiday` on day numbers. -/
def isHolidayD (z : Int) : Bool :=
  isHoliday (ofDays z)

/-- The error message raised by both business-day searches
(`"{max_lookback} gün içinde iş günü bulunamadı"` with the bound 30). -/
def noBusinessDayMsg : String := "30 gün içinde iş günü bulunamadı"

/-- Backward-search loop of `get_previous_business_day`, on day numbers.

The Python loop is `current = d - 1; while is_holiday(current): current -= 1;
if (d - current).days > 30: raise ValueError`.  It is embedded structurally
on `budget`, the number of further decrements the bound still allows:
at `current = d - 1 - j` the budget is `29 - j`, and the `ValueError`
(`budget = 0` while `current` is still a holiday) fires exactly when the
Python check `(d - current).days > 30` does, after 30 tested holidays. -/
def prevGo (isHol : Int → Bool) (current : Int) : Nat → Except String Int
  | 0 => if isHol current then .error noBusinessDayMsg else .ok current
  | budget + 1 =>
    if isHol current then prevGo isHol (current - 1) budget else .ok current

/-- Forward-search loop of `get_next_business_day`, on day numbers; the
mirror image of `prevGo` (the Python check is `(current - d).days > 30`). -/
def nextGo (isHol : Int → Bool) (current : Int) : Nat → Except String Int
  | 0 => if isHol current then .error noBusinessDayMsg else .ok current
  | budget + 1 =>
    if isHol current then nextGo isHol (current + 1) budget else .ok current

/-- `get_previous_business_day` on day numbers. -/
def getPreviousBusinessDayD (z : Int) : Except String Int :=
  prevGo isHolidayD (z - 1) 29

/-- `get_next_business_day` on day numbers. -/
def getNextBusinessDayD (z : Int) : Except String Int :=
  nextGo isHolidayD (z + 1) 29

/-- `get_previous_business_day` from `core/holidays.py`, on dates. -/
def getPreviousBusinessDay (dt : Date) : Except String Date :=
  (getPreviousBusinessDayD (toDays dt)).map ofDays

/-- `get_next_business_day` from `core/holidays.py`, on dates. -/
def getNextBusinessDay (dt : Date) : Except String Date :=
  (getNextBusinessDayD (toDays dt)).map ofDays

/-! ## URL helpers (embedding of `core/constants.py`) -/

def TCMB_BASE_URL : String := "https://www.tcmb.gov.tr"

def TCMB_TODAY_URL : String := TCMB_BASE_URL ++ "/kurlar/today.xml"

/-- Zero-pad a (nonnegative) integer to two digits, as `strftime` does for
`%d` and `%m`. -/
def pad2 (n : Int) : String :=
  if n < 10 then "0" ++ toString n else toString n

/-- Zero-pad a (nonnegative) integer to four digits, as `strftime` does for
`%Y` on the year range Python `date` admits. -/
def pad4 (n : Int) : String :=
  if n < 10 then "000" ++ toString n
  else if n < 100 then "00" ++ toString n
  else if n < 1000 then "0" ++ toString n
  else toString n

/-- `strftime("%Y%m")` of a date. -/
def fmtYYYYMM (dt : Date) : String :=
  pad4 dt.year ++ pad2 dt.month

/-- `strftime("%d%m%Y")` of a date. -/
def fmtDDMMYYYY (dt : Date) : String :=
  pad2 dt.day ++ pad2 dt.month ++ pad4 dt.year

/-- `get_historical_url` from `core/constants.py`:
`f"{TCMB_BASE_URL}/kurlar/{folder}/{filename}.xml"` with
`folder = strftime("%Y%m")` and `filename = strftime("%d%m%Y")`. -/
def getHistoricalUrl (target_date : Date) : String :=
  TCMB_BASE_URL ++ "/kurlar/" ++ fmtYYYYMM target_date ++ "/"
    ++ fmtDDMMYYYY target_date ++ ".xml"

/-! ## Embedding of CPython numeric-literal parsing

`pyInt` models `int(str)` and `pyDecimal` models `decimal.Decimal(str)`
on finite ASCII numeric literals; `none` models a raised
`ValueError`/`InvalidOperation`.  Not modelled (outside everything this
system feeds them): numeric underscores, non-ASCII digits and whitespace,
and the special `Decimal` inputs `NaN`/`Infinity`. -/

/-- Whitespace stripped by Python `str.strip()` (ASCII fragment). -/
def isPyWS (c : Char) : Bool :=
  c = ' ' || c = '\t' || c = '\n' || c = '\r' || c = '\x0b' || c = '\x0c'

/-- Python `str.strip()` (ASCII whitespace). -/
def trimWS (s : String) : String :=
  ⟨((s.data.dropWhile isPyWS).reverse.dropWhile isPyWS).reverse⟩

/-- Numeric value of a list of ASCII digits (most significant first). -/
def digitsVal (l : List Char) : Nat :=
  l.foldl (fun a c => a * 10 + (c.toNat - 48)) 0

/-- Strip one optional leading sign, returning the sign as `±1`. -/
def parseSign : List Char → Int × List Char
  | '+' :: r => (1, r)
  | '-' :: r => (-1, r)
  | r => (1, r)

/-- Exact rational value of a parsed literal `sign integer.fraction E exp`. -/
def litVal (sgn : Int) (ip fp : List Char) (ex : Int) : ℚ :=
  (sgn : ℚ) * ((digitsVal ip : ℚ) * (10 : ℚ) ^ fp.length + (digitsVal fp : ℚ))
    / (10 : ℚ) ^ fp.length * (10 : ℚ) ^ ex

/-- `int(s)` on a stripped character list: optional sign then a nonempty
run of digits. -/
def pyIntCore (cs : List Char) : Option Int :=
  let sr := parseSign cs
  if sr.2 = [] ∨ ¬ sr.2.all Char.isDigit then none
  else some (sr.1 * (digitsVal sr.2 : Int))

/-- Python `int(s)`: strip whitespace, then parse a signed digit run;
`none` models a raised `ValueError`. -/
def pyInt (s : String) : Option Int :=
  pyIntCore (trimWS s).data

/-- `Decimal(s)` on a stripped character list: optional sign, digits with
an optional fractional part (at least one digit in total), and an
optional exponent part.  The result is the exact rational value. -/
def pyDecimalCore (cs : List Char) : Option ℚ :=
  let sr := parseSign cs
  let ip := sr.2.takeWhile Char.isDigit
  let r1 := sr.2.dropWhile Char.isDigit
  let fr := match r1 with
    | '.' :: t => (t.takeWhile Char.isDigit, t.dropWhile Char.isDigit)
    | _ => ([], r1)
  if ip = [] ∧ fr.1 = [] then none
  else
    match fr.2 with
    | [] => some (litVal sr.1 ip fr.1 0)
    | e :: t =>
      if e = 'e' ∨ e = 'E' then
        let esr := parseSign t
        let ed := esr.2.takeWhile Char.isDigit
        if ed = [] ∨ esr.2.dropWhile Char.isDigit ≠ [] then none
        else some (litVal sr.1 ip fr.1 (esr.1 * (digitsVal ed : Int)))
      else none

/-- Python `Decimal(s)` (finite numeric literals): strip whitespace, then
parse; `none` models a raised `InvalidOperation`. -/
def pyDecimal (s : String) : Option ℚ :=
  pyDecimalCore (trimWS s).data

/-- `RateType` from `models/enums.py`. -/
inductive RateType where
  | forex_buying
  | forex_selling
  | banknote_buying
  | banknote_selling
deriving DecidableEq

/-- `CurrencyRate` from `models/schemas.py`; `Decimal` fields are exact
rationals (see the file header). -/
structure CurrencyRate where
  code : String
  name : String
  name_tr : String
  unit : Int
  forex_buying : Option ℚ
  forex_selling : Option ℚ
  banknote_buying : Option ℚ
  banknote_selling : Option ℚ
  cross_rate_usd : Option ℚ
  cross_rate_other : Option ℚ
deriving DecidableEq

/-- `ExchangeRates` from `models/schemas.py`. -/
structure ExchangeRates where
  date : Date
  bulletin_no : Option String
  rates : List CurrencyRate
  warning : Option String
deriving DecidableEq

/-- `CurrencyRate.get_rate`: the `rate_map` lookup over the four types. -/
def CurrencyRate.getRate (r : CurrencyRate) (t : RateType) : Option ℚ :=
  match t with
  | .forex_buying => r.forex_buying
  | .forex_selling => r.forex_selling
  | .banknote_buying => r.banknote_buying
  | .banknote_selling => r.banknote_selling

/-- `CurrencyRate.get_unit_rate`: `None` if the rate is absent, otherwise
`rate / Decimal(unit)`. -/
def CurrencyRate.getUnitRate (r : CurrencyRate) (t : RateType) : Option ℚ :=
  match r.getRate t with
  | none => none
  | some rate => some (rate / (r.unit : ℚ))

/-! ## Bulletin parser (embedding of `utils/xml_parser.py`)

The XML text has already been turned into an element tree by
`defusedxml` upstream of everything the claims are about, so documents
are embedded at the tree level: a root with its two attributes and a
list of `Currency` elements, each with its optional `CurrencyCode`
attribute and its child elements as (tag, text) pairs (`ElementTree`
gives `text = None` for an empty element, hence `Option String`). -/

structure CurrencyElem where
  currencyCode : Option String
  children : List (String × Option String)

/-- The nested `get_text` helper: the text of the first child with the
given tag, or `None` if there is no such child. -/
def getText (c : CurrencyElem) (tag : String) : Option String :=
  match c.children.find? fun p => p.1 = tag with
  | none => none
  | some p => p.2

/-- `_parse_decimal`: `None` for a missing or blank value, otherwise
`Decimal(value.strip())` with `InvalidOperation` mapped to `None`. -/
def parseDecField (v : Option String) : Option ℚ :=
  match v with
  | none => none
  | some s => if trimWS s = "" then none else pyDecimal (trimWS s)

/-- Truthy-string fallback `get_text(tag) or code` used for the names. -/
def textOr (v : Option String) (dflt : String) : String :=
  match v with
  | none => dflt
  | some s => if s = "" then dflt else s

/-- Per-record body of the `for currency_elem in root.findall("Currency")`
loop: `ok none` is the silent `continue` for a missing code; `error`
models an exception aborting the whole parse (only `int(unit_str)` can
raise here). -/
def parseCurrencyElem (c : CurrencyElem) : Except String (Option CurrencyRate) :=
  match c.currencyCode with
  | none => .ok none
  | some code =>
    let unitRes : Except String Int :=
      match getText c "Unit" with
      | none => .ok 1
      | some s =>
        if s = "" then .ok 1
        else
          match pyInt s with
          | some n => .ok n
          | none => .error "ValueError: invalid literal for int()"
    match unitRes with
    | .error e => .error e
    | .ok unit =>
      .ok (some
        { code := code
          name := textOr (getText c "CurrencyName") code
          name_tr := textOr (getText c "Isim") code
          unit := unit
          forex_buying := parseDecField (getText c "ForexBuying")
          forex_selling := parseDecField (getText c "ForexSelling")
          banknote_buying := parseDecField (getText c "BanknoteBuying")
          banknote_selling := parseDecField (getText c "BanknoteSelling")
          cross_rate_usd := parseDecField (getText c "CrossRateUSD")
          cross_rate_other := parseDecField (getText c "CrossRateOther") })

/-- Exceptions crossing the client's interfaces: `TCMBAPIError` (with its
optional `status_code`), `TCMBConnectionError`, and Python `ValueError`. -/
inductive PyErr where
  | api (msg : String) (statusCode : Option Nat)
  | conn (msg : String)
  | value (msg : String)
deriving DecidableEq

/-- `status_code` of an error (`None` on the non-API kinds). -/
def PyErr.status : PyErr → Option Nat
  | .api _ s => s
  | _ => none

/-- What one `GET` attempt comes back as: a 2xx body, a timeout, a
connection error, or a non-2xx HTTP status (for which httpx's
`raise_for_status` raises). -/
inductive AttemptOutcome where
  | ok (body : String)
  | timeout
  | connError
  | httpStatus (code : Nat)

/-- An attempt outcome the loop retries on: timeouts, connection errors,
and raised statuses outside the 4xx range. -/
def retryable : AttemptOutcome → Bool
  | .ok _ => false
  | .timeout => true
  | .connError => true
  | .httpStatus c => !(400 ≤ c && c < 500)

/-- Message of the `TCMBConnectionError` raised when attempts run out. -/
def connFailMsg : String := "TCMB baglanti hatasi: deneme basarisiz"

/-- Body of `_fetch_with_retry`'s `for attempt, delay in enumerate(delays)`
loop over the remaining (index, delay) pairs.  Returns the result, the
trace of backoff sleeps performed, and the number of GETs issued.  A 404
raises `TCMBAPIError` before `raise_for_status`; any other 4xx raises it
from the status handler; retryable outcomes fall through to the
end-of-body sleep, which is skipped on the final attempt (`rest = []`);
an empty list is the fall-through `TCMBConnectionError`. -/
def goFetch (oracle : Nat → AttemptOutcome) :
    List (Nat × ℚ) → Except PyErr String × List ℚ × Nat
  | [] => (.error (.conn connFailMsg), [], 0)
  | (i, d) :: rest =>
    match oracle i with
    | .ok body => (.ok body, [], 1)
    | .httpStatus c =>
      if c = 404 then (.error (.api "Veri bulunamadi" (some 404)), [], 1)
      else if 400 ≤ c ∧ c < 500 then (.error (.api "API hatasi" (some c)), [], 1)
      else
        let r := goFetch oracle rest
        (r.1, (if rest.isEmpty then [] else [d]) ++ r.2.1, r.2.2 + 1)
    | .timeout =>
      let r := goFetch oracle rest
      (r.1, (if rest.isEmpty then [] else [d]) ++ r.2.1, r.2.2 + 1)
    | .connError =>
      let r := goFetch oracle rest
      (r.1, (if rest.isEmpty then [] else [d]) ++ r.2.1, r.2.2 + 1)

/-- `_fetch_with_retry`: delays are
`[retry_delay * 2**i for i in range(max_retries)]`. -/
def fetchWithRetry (oracle : Nat → AttemptOutcome) (maxRetries : Nat)
    (retryDelay : ℚ) : Except PyErr String × List ℚ × Nat :=
  goFetch oracle ((List.range maxRetries).map fun i => (i, retryDelay * 2 ^ i))

/-- The holiday-fallback warning attached by `get_rates_for_date`. -/
def warnMsg (original actual : Date) : String :=
  "tatil gunu: " ++ pad4 original.year ++ "-" ++ pad2 original.month ++ "-"
    ++ pad2 original.day ++ " yerine " ++ pad4 actual.year ++ "-"
    ++ pad2 actual.month ++ "-" ++ pad2 actual.day

/-- `get_rates_for_date(date, handle_holidays=False)`: no holiday
substitution, no warning, and the `except` clause re-raises every error
(its condition requires `handle_holidays`), so the call is exactly the
fetch-and-parse of the date's historical URL. -/
def getRatesNoH (fetchParse : String → Except PyErr ExchangeRates) (dt : Date) :
    Except PyErr ExchangeRates :=
  fetchParse (getHistoricalUrl dt)

/-- `get_rates_for_date` from `services/tcmb_client.py`, with the single
recursive call (always made with `handle_holidays=False`) unfolded to
`getRatesNoH`; `lemma getRatesForDate_false` below checks the unfolding.
`fetchParse` is the oracle for
`parse_tcmb_xml(await self._fetch_with_retry(url))`. -/
def getRatesForDate (fetchParse : String → Except PyErr ExchangeRates)
    (target_date : Date) (handle_holidays : Bool) : Except PyErr ExchangeRates :=
  let resolved : Except String (Date × Option String) :=
    if handle_holidays && isHoliday target_date then
      match getPreviousBusinessDayD (toDays target_date) with
      | .error m => .error m
      | .ok z => .ok (ofDays z, some (warnMsg target_date (ofDays z)))
    else .ok (target_date, none)
  match resolved with
  | .error m => .error (.value m)
  | .ok (target, warning) =>
    match fetchParse (getHistoricalUrl target) with
    | .ok rates =>
      .ok (match warning with
           | some w => { rates with warning := some w }
           | none => rates)
    | .error e =>
      if e.status = some 404 && handle_holidays then
        match getPreviousBusinessDayD (toDays target) with
        | .error m => .error (.value m)
        | .ok z => getRatesNoH fetchParse (ofDays z)
      else .error e

/-! ## Cache (embedding of `services/cache_service.py`)

The SQLite table is a finite map from the date key to a record.  The
serialized payload is embedded at the JSON-tree level: `json.dumps` /
`json.loads` are exact inverses on JSON trees, so the text encoding is
abstracted away, and a stored text on which `json.loads` raises is
embedded as `Except.error`.  Leaves that pydantic writes through a
string form whose round trip is exact (`date.isoformat`, `str(Decimal)`,
`datetime.isoformat` for `fetched_at`) carry the value directly. -/

inductive Json where
  | jnull
  | jbool (b : Bool)
  | jstr (s : String)
  | jint (n : Int)
  | jdec (q : ℚ)
  | jdate (d : Date)
  | jarr (items : List Json)
  | jobj (fields : List (String × Json))

/-- Serialization of an optional `Decimal` field (the `field_serializer`
writes `str(value)` or JSON null). -/
def dumpOptDec : Option ℚ → Json
  | none => .jnull
  | some q => .jdec q

/-- Serialization of an optional string field. -/
def dumpOptStr : Option String → Json
  | none => .jnull
  | some s => .jstr s

/-- `model_dump_json` of one `CurrencyRate`. -/
def dumpRate (r : CurrencyRate) : Json :=
  .jobj [("code", .jstr r.code), ("name", .jstr r.name),
         ("name_tr", .jstr r.name_tr), ("unit", .jint r.unit),
         ("forex_buying", dumpOptDec r.forex_buying),
         ("forex_selling", dumpOptDec r.forex_selling),
         ("banknote_buying", dumpOptDec r.banknote_buying),
         ("banknote_selling", dumpOptDec r.banknote_selling),
         ("cross_rate_usd", dumpOptDec r.cross_rate_usd),
         ("cross_rate_other", dumpOptDec r.cross_rate_other)]

/-- `model_dump_json` of an `ExchangeRates` snapshot. -/
def dumpRates (r : ExchangeRates) : Json :=
  .jobj [("date", .jdate r.date), ("bulletin_no", dumpOptStr r.bulletin_no),
         ("rates", .jarr (r.rates.map dumpRate)),
         ("warning", dumpOptStr r.warning)]

/-- Field lookup in a validated JSON object. -/
def jfield (fields : List (String × Json)) (k : String) : Option Json :=
  match fields.find? fun p => p.1 = k with
  | none => none
  | some p => some p.2

def validationErrMsg : String := "pydantic ValidationError"

/-- Validation of an optional `Decimal` field. -/
def validOptDec : Option Json → Except String (Option ℚ)
  | some .jnull => .ok none
  | some (.jdec q) => .ok (some q)
  | none => .ok none
  | _ => .error validationErrMsg

/-- Validation of an optional string field. -/
def validOptStr : Option Json → Except String (Option String)
  | some .jnull => .ok none
  | some (.jstr s) => .ok (some s)
  | none => .ok none
  | _ => .error validationErrMsg

/-- `model_validate` for one `CurrencyRate`: accepts exactly the shapes
the serializer produces, raising `ValidationError` on anything else. -/
def validRate : Json → Except String CurrencyRate
  | .jobj fs =>
    match jfield fs "code", jfield fs "name", jfield fs "name_tr", jfield fs "unit" with
    | some (.jstr code), some (.jstr name), some (.jstr name_tr), some (.jint unit) =>
      match validOptDec (jfield fs "forex_buying"),
          validOptDec (jfield fs "forex_selling"),
          validOptDec (jfield fs "banknote_buying"),
          validOptDec (jfield fs "banknote_selling"),
          validOptDec (jfield fs "cross_rate_usd"),
          validOptDec (jfield fs "cross_rate_other") with
      | .ok fb, .ok fs2, .ok bb, .ok bs, .ok cu, .ok co =>
        .ok ⟨code, name, name_tr, unit, fb, fs2, bb, bs, cu, co⟩
      | _, _, _, _, _, _ => .error validationErrMsg
    | _, _, _, _ => .error validationErrMsg
  | _ => .error validationErrMsg

/-- Validation of the `rates` array, element by element. -/
def validRateList : List Json → Except String (List CurrencyRate)
  | [] => .ok []
  | j :: rest =>
    match validRate j with
    | .error e => .error e
    | .ok r =>
      match validRateList rest with
      | .error e => .error e
      | .ok rs => .ok (r :: rs)

/-- `ExchangeRates.model_validate` on a JSON tree. -/
def validRates : Json → Except String ExchangeRates
  | .jobj fs =>
    match jfield fs "date", jfield fs "rates" with
    | some (.jdate d), some (.jarr items) =>
      match validOptStr (jfield fs "bulletin_no"), validOptStr (jfield fs "warning") with
      | .ok bn, .ok w =>
        match validRateList items with
        | .error e => .error e
        | .ok rs => .ok ⟨d, bn, rs, w⟩
      | _, _ => .error validationErrMsg
    | _, _ => .error validationErrMsg
  | _ => .error validationErrMsg

/-- One row of the `exchange_rates` table.  `data` is the result of
`json.loads` on the stored text (`Except.error` embeds a text that fails
JSON decoding); `fetchedAt` is the `fetched_at` timestamp, in seconds (timestamps are
modelled at integer-second granularity; `ttl_seconds` is an `int` in the
source); `expiresAt` is the optional `expires_at` timestamp. -/
structure CacheRecord where
  data : Except String Json
  fetchedAt : Int
  expiresAt : Option Int

/-- The table: an association list keyed by the (unique) date. -/
def CacheDb := List (Date × CacheRecord)

/-- Row lookup by date key. -/
def lookupDb (db : CacheDb) (d : Date) : Option CacheRecord :=
  match db.find? fun p => decide (p.1 = d) with
  | none => none
  | some p => some p.2

/-- `INSERT OR REPLACE` keyed by date. -/
def upsertDb (db : CacheDb) (d : Date) (rec : CacheRecord) : CacheDb :=
  (d, rec) :: db.filter fun p => !decide (p.1 = d)

/-- `CacheService.get_rates`: miss on no row; with a TTL, a row older
than `ttl_seconds` is reported absent (the row itself is untouched);
otherwise the payload is deserialized — a JSON-decoding failure is
caught by the `except` clause and reported as a miss, while a pydantic
`ValidationError` from `model_validate` is not caught and propagates. -/
def cacheGetRates (db : CacheDb) (target_date : Date) (ttl : Option Int) (now : Int) :
    Except String (Option ExchangeRates) :=
  match lookupDb db target_date with
  | none => .ok none
  | some rec =>
    let deser : Except String (Option ExchangeRates) :=
      match rec.data with
      | .error _ => .ok none
      | .ok j =>
        match validRates j with
        | .error e => .error e
        | .ok r => .ok (some r)
    match ttl with
    | some t => if now - rec.fetchedAt > t then .ok none else deser
    | none => deser

/-- `CacheService.set_rates`: upsert the serialized snapshot keyed by its
date, with `fetched_at = now` and `expires_at` set only for a truthy
(nonzero) TTL. -/
def cacheSetRates (db : CacheDb) (rates : ExchangeRates) (ttl : Option Int) (now : Int) :
    CacheDb :=
  upsertDb db rates.date
    { data := .ok (dumpRates rates)
      fetchedAt := now
      expiresAt := match ttl with
        | none => none
        | some t => if t = 0 then none else some (now + t) }

/-! ## Lemmas on the business-day search loops -/

lemma prevGo_ok_iff (isHol : Int → Bool) :
    ∀ (budget : Nat) (current r : Int),
    prevGo isHol current budget = .ok r ↔
      (current - budget ≤ r ∧ r ≤ current ∧ isHol r = false ∧
       ∀ k, r < k → k ≤ current → isHol k = true) := by
  intro budget
  induction budget with
  | zero =>
    intro current r
    by_cases h : isHol current
    · simp only [prevGo, h, if_true]
      constructor
      · intro hc
        exact absurd hc (by simp)
      · rintro ⟨h1, h2, h3, -⟩
        have : r = current := by omega
        rw [this] at h3
        rw [h3] at h
        exact absurd h (by simp)
    · simp only [prevGo, h, if_false, Bool.false_eq_true]
      rw [eq_comm]
      constructor
      · intro hc
        rcases hc with ⟨rfl⟩
        refine ⟨by omega, by omega, by simpa using h, ?_⟩
        intro k hk1 hk2
        omega
      · rintro ⟨h1, h2, h3, h4⟩
        have : r = current := by omega
        simp [this]
  | succ b ih =>
    intro current r
    by_cases h : isHol current
    · simp only [prevGo, h, if_true]
      rw [ih (current - 1) r]
      constructor
      · rintro ⟨h1, h2, h3, h4⟩
        refine ⟨by omega, by omega, h3, ?_⟩
        intro k hk1 hk2
        by_cases hk : k = current
        · rw [hk]; exact h
        · exact h4 k hk1 (by omega)
      · rintro ⟨h1, h2, h3, h4⟩
        have hne : r ≠ current := by
          intro he
          rw [he] at h3
          rw [h3] at h
          exact absurd h (by simp)
        refine ⟨by omega, by omega, h3, ?_⟩
        intro k hk1 hk2
        exact h4 k hk1 (by omega)
    · simp only [prevGo, h, if_false, Bool.false_eq_true]
      rw [eq_comm]
      constructor
      · intro hc
        rcases hc with ⟨rfl⟩
        refine ⟨by omega, by omega, by simpa using h, ?_⟩
        intro k hk1 hk2
        omega
      · rintro ⟨h1, h2, h3, h4⟩
        rcases lt_or_eq_of_le h2 with hlt | he
        · have := h4 current hlt (by omega)
          rw [this] at h
          exact absurd rfl h
        · simp [he]

lemma prevGo_err_iff (isHol : Int → Bool) :
    ∀ (budget : Nat) (current : Int) (e : String),
    prevGo isHol current budget = .error e ↔
      (e = noBusinessDayMsg ∧
       ∀ k, current - budget ≤ k → k ≤ current → isHol k = true) := by
  intro budget
  induction budget with
  | zero =>
    intro current e
    by_cases h : isHol current
    · simp only [prevGo, h, if_true]
      constructor
      · intro hc
        rcases hc with ⟨rfl⟩
        refine ⟨rfl, ?_⟩
        intro k hk1 hk2
        have : k = current := by omega
        rw [this]; exact h
      · rintro ⟨rfl, -⟩
        rfl
    · simp only [prevGo, h, if_false, Bool.false_eq_true]
      constructor
      · intro hc
        exact absurd hc (by simp)
      · rintro ⟨-, h4⟩
        have := h4 current (by omega) (by omega)
        rw [this] at h
        exact absurd rfl h
  | succ b ih =>
    intro current e
    by_cases h : isHol current
    · simp only [prevGo, h, if_true]
      rw [ih (current - 1) e]
      constructor
      · rintro ⟨rfl, h4⟩
        refine ⟨rfl, ?_⟩
        intro k hk1 hk2
        by_cases hk : k = current
        · rw [hk]; exact h
        · exact h4 k (by omega) (by omega)
      · rintro ⟨rfl, h4⟩
        refine ⟨rfl, ?_⟩
        intro k hk1 hk2
        exact h4 k (by omega) (by omega)
    · simp only [prevGo, h, if_false, Bool.false_eq_true]
      constructor
      · intro hc
        exact absurd hc (by simp)
      · rintro ⟨-, h4⟩
        have := h4 current (by omega) (by omega)
        rw [this] at h
        exact absurd rfl h

lemma nextGo_ok_iff (isHol : Int → Bool) :
    ∀ (budget : Nat) (current r : Int),
    nextGo isHol current budget = .ok r ↔
      (current ≤ r ∧ r ≤ current + budget ∧ isHol r = false ∧
       ∀ k, current ≤ k → k < r → isHol k = true) := by
  intro budget
  induction budget with
  | zero =>
    intro current r
    by_cases h : isHol current
    · simp only [nextGo, h, if_true]
      constructor
      · intro hc
        exact absurd hc (by simp)
      · rintro ⟨h1, h2, h3, -⟩
        have : r = current := by omega
        rw [this] at h3
        rw [h3] at h
        exact absurd h (by simp)
    · simp only [nextGo, h, if_false, Bool.false_eq_true]
      rw [eq_comm]
      constructor
      · intro hc
        rcases hc with ⟨rfl⟩
        refine ⟨by omega, by omega, by simpa using h, ?_⟩
        intro k hk1 hk2
        omega
      · rintro ⟨h1, h2, h3, h4⟩
        have : r = current := by omega
        simp [this]
  | succ b ih =>
    intro current r
    by_cases h : isHol current
    · simp only [nextGo, h, if_true]
      rw [ih (current + 1) r]
      constructor
      · rintro ⟨h1, h2, h3, h4⟩
        refine ⟨by omega, by omega, h3, ?_⟩
        intro k hk1 hk2
        by_cases hk : k = current
        · rw [hk]; exact h
        · exact h4 k (by omega) hk2
      · rintro ⟨h1, h2, h3, h4⟩
        have hne : r ≠ current := by
          intro he
          rw [he] at h3
          rw [h3] at h
          exact absurd h (by simp)
        refine ⟨by omega, by omega, h3, ?_⟩
        intro k hk1 hk2
        exact h4 k (by omega) hk2
    · simp only [nextGo, h, if_false, Bool.false_eq_true]
      rw [eq_comm]
      constructor
      · intro hc
        rcases hc with ⟨rfl⟩
        refine ⟨by omega, by omega, by simpa using h, ?_⟩
        intro k hk1 hk2
        omega
      · rintro ⟨h1, h2, h3, h4⟩
        rcases lt_or_eq_of_le h1 with hlt | he
        · have := h4 current (by omega) hlt
          rw [this] at h
          exact absurd rfl h
        · simp [← he]

lemma nextGo_err_iff (isHol : Int → Bool) :
    ∀ (budget : Nat) (current : Int) (e : String),
    nextGo isHol current budget = .error e ↔
      (e = noBusinessDayMsg ∧
       ∀ k, current ≤ k → k ≤ current + budget → isHol k = true) := by
  intro budget
  induction budget with
  | zero =>
    intro current e
    by_cases h : isHol current
    · simp only [nextGo, h, if_true]
      constructor
      · intro hc
        rcases hc with ⟨rfl⟩
        refine ⟨rfl, ?_⟩
        intro k hk1 hk2
        have : k = current := by omega
        rw [this]; exact h
      · rintro ⟨rfl, -⟩
        rfl
    · simp only [nextGo, h, if_false, Bool.false_eq_true]
      constructor
      · intro hc
        exact absurd hc (by simp)
      · rintro ⟨-, h4⟩
        have := h4 current (by omega) (by omega)
        rw [this] at h
        exact absurd rfl h
  | succ b ih =>
    intro current e
    by_cases h : isHol current
    · simp only [nextGo, h, if_true]
      rw [ih (current + 1) e]
      constructor
      · rintro ⟨rfl, h4⟩
        refine ⟨rfl, ?_⟩
        intro k hk1 hk2
        by_cases hk : k = current
        · rw [hk]; exact h
        · exact h4 k (by omega) (by omega)
      · rintro ⟨rfl, h4⟩
        refine ⟨rfl, ?_⟩
        intro k hk1 hk2
        exact h4 k (by omega) (by omega)
    · simp only [nextGo, h, if_false, Bool.false_eq_true]
      constructor
      · intro hc
        exact absurd hc (by simp)
      · rintro ⟨-, h4⟩
        have := h4 current (by omega) (by omega)
        rw [this] at h
        exact absurd rfl h

lemma except_error_exists {ε α : Type} (x : Except ε α) :
    (∃ e, x = .error e) ↔ ∀ r, x ≠ .ok r := by
  cases x with
  | error e => simp
  | ok r => simp

/-! ## Lemmas on the retry loop -/

/-- Result of the attempt the loop stops at (given `retryable _ = false`;
the retryable constructors are mapped arbitrarily). -/
def stopOutcome : AttemptOutcome → Except PyErr String
  | .ok body => .ok body
  | .httpStatus c =>
    if c = 404 then .error (.api "Veri bulunamadi" (some 404))
    else .error (.api "API hatasi" (some c))
  | _ => .error (.conn connFailMsg)

lemma goFetch_all_retryable (oracle : Nat → AttemptOutcome) :
    ∀ l : List (Nat × ℚ), (∀ p ∈ l, retryable (oracle p.1) = true) →
    goFetch oracle l =
      (.error (.conn connFailMsg), (l.map Prod.snd).dropLast, l.length) := by
  intro l
  induction l with
  | nil => intro _; rfl
  | cons hd tl ih =>
    intro hall
    obtain ⟨i, d⟩ := hd
    have hhd := hall (i, d) (by simp)
    have htl := fun p hp => hall p (List.mem_cons_of_mem _ hp)
    have hrec :
        (let r := goFetch oracle tl
         (r.1, (if tl.isEmpty then [] else [d]) ++ r.2.1, r.2.2 + 1)) =
        ((.error (.conn connFailMsg) : Except PyErr String),
         ((i, d) :: tl).map Prod.snd |>.dropLast, ((i, d) :: tl).length) := by
      rw [ih htl]
      cases tl with
      | nil => simp [List.dropLast]
      | cons x t => simp [List.dropLast]
    rcases ho : oracle i with body | _ | _ | c
    · rw [ho] at hhd; simp only [retryable] at hhd
      exact absurd hhd (by simp)
    · simpa [goFetch, ho] using hrec
    · simpa [goFetch, ho] using hrec
    · rw [ho] at hhd; simp only [retryable] at hhd
      have hc : ¬(400 ≤ c ∧ c < 500) := by
        intro hcc
        simp [hcc.1, hcc.2] at hhd
      have hc404 : ¬(c = 404) := by
        intro h4
        exact hc (by omega)
      simpa [goFetch, ho, hc404, hc] using hrec

lemma goFetch_stops (oracle : Nat → AttemptOutcome) :
    ∀ (l1 : List (Nat × ℚ)) (p : Nat × ℚ) (l2 : List (Nat × ℚ)),
    (∀ q ∈ l1, retryable (oracle q.1) = true) →
    retryable (oracle p.1) = false →
    goFetch oracle (l1 ++ p :: l2) =
      (stopOutcome (oracle p.1), l1.map Prod.snd, l1.length + 1) := by
  intro l1
  induction l1 with
  | nil =>
    intro p l2 _ hstop
    rcases ho : oracle p.1 with body | _ | _ | c
    · simp [goFetch, ho, stopOutcome]
    · rw [ho] at hstop; simp only [retryable] at hstop
      exact absurd hstop (by simp)
    · rw [ho] at hstop; simp only [retryable] at hstop
      exact absurd hstop (by simp)
    · rw [ho] at hstop; simp only [retryable] at hstop
      have hc : 400 ≤ c ∧ c < 500 := by
        simpa using hstop
      by_cases h4 : c = 404
      · simp [goFetch, ho, h4, stopOutcome]
      · simp [goFetch, ho, h4, hc.1, hc.2, stopOutcome]
  | cons hd tl ih =>
    intro p l2 hall hstop
    obtain ⟨i, d⟩ := hd
    have hhd := hall (i, d) (by simp)
    have htl := fun q hq => hall q (List.mem_cons_of_mem _ hq)
    have hne : (tl ++ p :: l2).isEmpty = false := by
      cases tl <;> simp
    have hrec :
        (let r := goFetch oracle (tl ++ p :: l2)
         (r.1, (if (tl ++ p :: l2).isEmpty then [] else [d]) ++ r.2.1, r.2.2 + 1)) =
        (stopOutcome (oracle p.1), ((i, d) :: tl).map Prod.snd,
         ((i, d) :: tl).length + 1) := by
      rw [ih p l2 htl hstop]
      simp [hne]
    rcases ho : oracle i with body | _ | _ | c
    · rw [ho] at hhd; simp only [retryable] at hhd
      exact absurd hhd (by simp)
    · simpa [goFetch, ho] using hrec
    · simpa [goFetch, ho] using hrec
    · rw [ho] at hhd; simp only [retryable] at hhd
      have hc : ¬(400 ≤ c ∧ c < 500) := by
        intro hcc
        simp [hcc.1, hcc.2] at hhd
      have hc404 : ¬(c = 404) := by
        intro h4
        exact hc (by omega)
      simpa [goFetch, ho, hc404, hc] using hrec

/-! ## Claim theorems -/

/-- C5: `previous_trading_day` steps backward one day at a time while the
date is non-trading and returns the first trading day found; the
symmetric forward search for `next_trading_day`; each raises the 30-day
range error exactly when no trading day exists within 30 days of `d`
(dates are identified with their day numbers, see `toDays`/`ofDays`). -/
theorem claim_C5_business_day_search (z : Int) :
    (∀ r, getPreviousBusinessDayD z = .ok r →
       isHolidayD r = false ∧ r < z ∧ z - 30 ≤ r ∧
       ∀ k, r < k → k < z → isHolidayD k = true) ∧
    ((∃ e, getPreviousBusinessDayD z = .error e) ↔
       ∀ k, z - 30 ≤ k → k < z → isHolidayD k = true) ∧
    (∀ r, getNextBusinessDayD z = .ok r →
       isHolidayD r = false ∧ z < r ∧ r ≤ z + 30 ∧
       ∀ k, z < k → k < r → isHolidayD k = true) ∧
    ((∃ e, getNextBusinessDayD z = .error e) ↔
       ∀ k, z < k → k ≤ z + 30 → isHolidayD k = true) := by
  refine ⟨?_, ?_, ?_, ?_⟩
  · intro r hr
    rw [getPreviousBusinessDayD, prevGo_ok_iff] at hr
    obtain ⟨h1, h2, h3, h4⟩ := hr
    refine ⟨h3, by omega, by omega, ?_⟩
    intro k hk1 hk2
    exact h4 k hk1 (by omega)
  · constructor
    · rintro ⟨e, he⟩ k hk1 hk2
      rw [getPreviousBusinessDayD, prevGo_err_iff] at he
      exact he.2 k (by omega) (by omega)
    · intro hall
      rcases he : getPreviousBusinessDayD z with e | r
      · exact ⟨e, rfl⟩
      · rw [getPreviousBusinessDayD, prevGo_ok_iff] at he
        obtain ⟨h1, h2, h3, -⟩ := he
        have := hall r (by omega) (by omega)
        rw [this] at h3
        exact absurd h3 (by simp)
  · intro r hr
    rw [getNextBusinessDayD, nextGo_ok_iff] at hr
    obtain ⟨h1, h2, h3, h4⟩ := hr
    refine ⟨h3, by omega, by omega, ?_⟩
    intro k hk1 hk2
    exact h4 k (by omega) hk2
  · constructor
    · rintro ⟨e, he⟩ k hk1 hk2
      rw [getNextBusinessDayD, nextGo_err_iff] at he
      exact he.2 k (by omega) (by omega)
    · intro hall
      rcases he : getNextBusinessDayD z with e | r
      · exact ⟨e, rfl⟩
      · rw [getNextBusinessDayD, nextGo_ok_iff] at he
        obtain ⟨h1, h2, h3, -⟩ := he
        have := hall r (by omega) (by omega)
        rw [this] at h3
        exact absurd h3 (by simp)

/-- Witness for C5: on the source calendar, the previous business day of
Monday 2024-01-15 is Friday 2024-01-12 (a trading day), with the weekend
2024-01-13/14 in between non-trading, and the next business day of
Friday 2024-01-12 is a trading day. -/
theorem claim_C5_witness :
    isHolidayD (toDays ⟨2024, 1, 12⟩) = false ∧
    isHolidayD (toDays ⟨2024, 1, 13⟩) = true ∧
    isHolidayD (toDays ⟨2024, 1, 14⟩) = true ∧
    isHolidayD (toDays ⟨2024, 1, 15⟩) = false := by
  have hprev := (claim_C5_business_day_search (toDays ⟨2024, 1, 15⟩)).1
    (toDays ⟨2024, 1, 12⟩) (by decide)
  have hnext := (claim_C5_business_day_search (toDays ⟨2024, 1, 12⟩)).2.2.1
    (toDays ⟨2024, 1, 15⟩) (by decide)
  exact ⟨hprev.1, hprev.2.2.2 _ (by decide) (by decide),
    hprev.2.2.2 _ (by decide) (by decide), hnext.1⟩

/-- C6: `is_holiday` returns true on every Saturday (weekday 5) and
Sunday (weekday 6), whatever the fixed-holiday and religious-holiday
tables contain. -/
theorem claim_C6_weekend_non_trading
    (fixed : List (Int × Int)) (religious : List Date) (dt : Date)
    (h : weekday dt = 5 ∨ weekday dt = 6) :
    isHolidayWith fixed religious dt = true := by
  have hw : isWeekend dt = true := by
    rcases h with h | h <;> simp [isWeekend, h]
  simp [isHolidayWith, hw]

/-- Witness for C6: Saturday 2024-01-13 is non-trading both with empty
tables and with the source tables (`isHoliday`), and Sunday 2024-01-14
likewise. -/
theorem claim_C6_witness :
    isHolidayWith [] [] ⟨2024, 1, 13⟩ = true ∧
    isHolidayWith FIXED_HOLIDAYS RELIGIOUS_HOLIDAYS ⟨2024, 1, 14⟩ = true := by
  exact ⟨claim_C6_weekend_non_trading [] [] ⟨2024, 1, 13⟩ (Or.inl (by decide)),
    claim_C6_weekend_non_trading FIXED_HOLIDAYS RELIGIOUS_HOLIDAYS ⟨2024, 1, 14⟩
      (Or.inr (by decide))⟩

/-- C7: the historical-feed URL is the fixed base followed by
`/kurlar/{YYYYMM}/{DDMMYYYY}.xml`, derived purely from the target date;
in particular the two example dates of the spec map to exactly the
stated URLs. -/
theorem claim_C7_historical_url :
    (∀ dt : Date, getHistoricalUrl dt =
       TCMB_BASE_URL ++ "/kurlar/" ++ fmtYYYYMM dt ++ "/" ++ fmtDDMMYYYY dt ++ ".xml") ∧
    getHistoricalUrl ⟨2024, 1, 5⟩ =
      "https://www.tcmb.gov.tr/kurlar/202401/05012024.xml" ∧
    getHistoricalUrl ⟨2024, 12, 25⟩ =
      "https://www.tcmb.gov.tr/kurlar/202412/25122024.xml" :=
  ⟨fun _ => rfl, by decide, by decide⟩

/-- C4: the retry loop computes `max_retries` delays `base_delay * 2^i`;
a 404 or any other 4xx status raises a non-retryable `TCMBAPIError` at
once (one request, no sleeps beyond the earlier attempts' delays);
timeouts, connection failures and 5xx statuses are retried after that
attempt's backoff delay, with no sleep after the final attempt; and when
every attempt is retried away the loop raises `TCMBConnectionError`
having slept exactly the first `max_retries - 1` delays. -/
theorem claim_C4_fetch_retry (oracle : Nat → AttemptOutcome) (n : Nat) (base : ℚ) :
    ((∀ i, i < n → retryable (oracle i) = true) →
       fetchWithRetry oracle n base =
         (.error (.conn connFailMsg),
          (List.range (n - 1)).map (fun i => base * 2 ^ i), n)) ∧
    (∀ k, k < n → (∀ i, i < k → retryable (oracle i) = true) →
       ∀ c, oracle k = .httpStatus c → 400 ≤ c → c < 500 →
       fetchWithRetry oracle n base =
         (.error (.api (if c = 404 then "Veri bulunamadi" else "API hatasi") (some c)),
          (List.range k).map (fun i => base * 2 ^ i), k + 1)) ∧
    (∀ k, k < n → (∀ i, i < k → retryable (oracle i) = true) →
       ∀ body, oracle k = .ok body →
       fetchWithRetry oracle n base =
         (.ok body, (List.range k).map (fun i => base * 2 ^ i), k + 1)) := by
  have hsplit : ∀ k, k < n →
      (List.range n).map (fun i => (i, base * 2 ^ i)) =
        (List.range k).map (fun i => (i, base * 2 ^ i)) ++
          (k, base * 2 ^ k) ::
            ((List.range (n - k - 1)).map fun j => (k + 1 + j, base * 2 ^ (k + 1 + j))) := by
    intro k hk
    conv_lhs => rw [show n = (k + 1) + (n - k - 1) by omega]
    rw [List.range_add, List.range_succ, List.map_append, List.map_append, List.map_map,
      List.append_assoc]
    simp [Function.comp]
  have hmem : ∀ k, k ≤ n → (∀ i, i < k → retryable (oracle i) = true) →
      ∀ p ∈ (List.range k).map (fun i => (i, base * 2 ^ i)),
        retryable (oracle p.1) = true := by
    intro k _ hall p hp
    rw [List.mem_map] at hp
    obtain ⟨i, hi, rfl⟩ := hp
    exact hall i (List.mem_range.mp hi)
  have hsnd : ∀ k, ((List.range k).map (fun i => (i, base * 2 ^ i))).map Prod.snd =
      (List.range k).map (fun i => base * 2 ^ i) := by
    intro k
    rw [List.map_map]
    rfl
  refine ⟨?_, ?_, ?_⟩
  · intro hall
    rw [fetchWithRetry, goFetch_all_retryable oracle _ (hmem n le_rfl hall), hsnd]
    cases n with
    | zero => rfl
    | succ m =>
      rw [List.range_succ, List.map_append,
        show (List.map (fun i => base * 2 ^ i) [m]) = [base * 2 ^ m] from rfl,
        List.dropLast_concat]
      simp
  · intro k hk hall c hoc hc1 hc2
    have hstop : retryable (oracle k) = false := by
      rw [hoc]
      simp [retryable, hc1, hc2]
    rw [fetchWithRetry, hsplit k hk,
      goFetch_stops oracle _ _ _ (hmem k (by omega) hall) hstop, hsnd, hoc]
    by_cases h4 : c = 404
    · subst h4
      simp [stopOutcome]
    · simp [stopOutcome, h4]
  · intro k hk hall body hob
    have hstop : retryable (oracle k) = false := by
      rw [hob]
      rfl
    rw [fetchWithRetry, hsplit k hk,
      goFetch_stops oracle _ _ _ (hmem k (by omega) hall) hstop, hsnd, hob]
    simp [stopOutcome]

/-- Attempt oracle for the C4 witness: every attempt times out. -/
def witOracleA : Nat → AttemptOutcome := fun _ => .timeout

/-- Attempt oracle for the C4 witness: the first attempt is a 404. -/
def witOracleB : Nat → AttemptOutcome := fun _ => .httpStatus 404

/-- Attempt oracle for the C4 witness: a 500, then a success. -/
def witOracleC : Nat → AttemptOutcome := fun i =>
  if i = 0 then .httpStatus 500 else .ok "doc"

/-- Witness for C4, at `max_retries = 3` and `retry_delay = 1`: three
timeouts exhaust the attempts after sleeping the first two delays; a 404
on the first attempt fails at once with one request and no sleeps; a 500
followed by a 200 succeeds on the second request. -/
theorem claim_C4_witness :
    fetchWithRetry witOracleA 3 1 =
      (.error (.conn connFailMsg), (List.range 2).map (fun i => (1 : ℚ) * 2 ^ i), 3) ∧
    fetchWithRetry witOracleB 3 1 =
      (.error (.api "Veri bulunamadi" (some 404)), [], 1) ∧
    fetchWithRetry witOracleC 3 1 =
      (.ok "doc", (List.range 1).map (fun i => (1 : ℚ) * 2 ^ i), 2) := by
  refine ⟨?_, ?_, ?_⟩
  · exact (claim_C4_fetch_retry witOracleA 3 1).1 (fun i _ => rfl)
  · have h := (claim_C4_fetch_retry witOracleB 3 1).2.1 0 (by omega)
      (fun i hi => absurd hi (by omega)) 404 rfl (by omega) (by omega)
    simpa using h
  · exact (claim_C4_fetch_retry witOracleC 3 1).2.2 1 (by omega)
      (fun i hi => by
        have h0 : i = 0 := by omega
        subst h0
        rfl) "doc" rfl

/-- The effective fetch date resolved by `get_rates_for_date` when
`handle_holidays` is true: the requested date itself when it is a
trading day, otherwise its previous business day. -/
def holidayTarget (d : Date) : Except String Date :=
  if isHoliday d then getPreviousBusinessDay d else .ok d

lemma getRatesForDate_false (fp : String → Except PyErr ExchangeRates) (d : Date) :
    getRatesForDate fp d false = getRatesNoH fp d := by
  rw [getRatesForDate, getRatesNoH]
  cases hfp : fp (getHistoricalUrl d) with
  | error e => simp [hfp]
  | ok rates => simp [hfp]

/-- C1 (amended): the `handle_holidays=False` call performs the bare
fetch (`getRatesNoH`), so every error of it — in particular a 404 —
propagates with no recovery attempt; and when `handle_holidays=True`
resolves the fetch to `target` (the requested date, holiday-substituted
if needed) and that fetch raises a 404-classified `TCMBAPIError`, the
call performs exactly one recovery: it recurses on the previous business
day of the fetched `target` (not of the originally-requested date) with
`handle_holidays=False`, whose failures propagate. -/
theorem claim_C1_holiday_recovery (fp : String → Except PyErr ExchangeRates) (d : Date) :
    (∀ d2 : Date, getRatesForDate fp d2 false = getRatesNoH fp d2) ∧
    (∀ e, fp (getHistoricalUrl d) = .error e →
       getRatesForDate fp d false = .error e) ∧
    (∀ target, holidayTarget d = .ok target →
       ∀ e, fp (getHistoricalUrl target) = .error e → e.status = some 404 →
       getRatesForDate fp d true =
         (match getPreviousBusinessDay target with
          | .error m => .error (.value m)
          | .ok prev => getRatesNoH fp prev)) := by
  refine ⟨getRatesForDate_false fp, ?_, ?_⟩
  · intro e he
    rw [getRatesForDate_false, getRatesNoH, he]
  · intro target htgt e he hstat
    by_cases hh : isHoliday d
    · rw [holidayTarget, if_pos hh, getPreviousBusinessDay] at htgt
      rcases hz : getPreviousBusinessDayD (toDays d) with m | z
      · rw [hz] at htgt
        exact absurd htgt (by simp [Except.map])
      · rw [hz] at htgt
        simp only [Except.map, Except.ok.injEq] at htgt
        subst htgt
        rw [getRatesForDate, getPreviousBusinessDay]
        simp only [hh, hz, he, hstat, Bool.and_self, if_true,
          Bool.true_and, Bool.and_true]
        rcases hz2 : getPreviousBusinessDayD (toDays (ofDays z)) with m2 | z2 <;>
          simp [hz2, Except.map, he, hstat]
    · have hh' : isHoliday d = false := by simpa using hh
      rw [holidayTarget, if_neg hh] at htgt
      rcases htgt with ⟨rfl⟩
      rw [getRatesForDate, getPreviousBusinessDay]
      simp only [hh', he, hstat, Bool.and_false, Bool.false_and, Bool.and_true,
        Bool.true_and, if_false]
      rcases hz2 : getPreviousBusinessDayD (toDays d) with m2 | z2 <;>
        simp [hz2, Except.map, he, hstat]

/-- Bulletin returned for Thursday 2024-01-11 by the C1 network oracle. -/
def snapThu : ExchangeRates := ⟨⟨2024, 1, 11⟩, none, [], none⟩

/-- Network oracle for C1: only the Thursday 2024-01-11 document exists;
every other URL (including Friday 2024-01-12) is a 404. -/
def fp0 : String → Except PyErr ExchangeRates := fun u =>
  if u = getHistoricalUrl ⟨2024, 1, 11⟩ then .ok snapThu
  else .error (.api "Veri bulunamadi" (some 404))

/-- Counterexample to C1 as stated: request Saturday 2024-01-13 (a
holiday) with `handle_holidays=True` against `fp0`.  The previous
business day of the originally-requested date is Friday 2024-01-12,
whose fetch yields the very 404 being recovered from — so the recovery
predicted by the claim (recursing on the original date's previous
trading day with `handle_holidays=False`) would propagate that 404.  The
code instead recurses on the previous business day of the substituted
fetch date (Thursday 2024-01-11) and returns its bulletin. -/
theorem claim_C1_counterexample :
    getPreviousBusinessDay ⟨2024, 1, 13⟩ = .ok ⟨2024, 1, 12⟩ ∧
    fp0 (getHistoricalUrl ⟨2024, 1, 12⟩) = .error (.api "Veri bulunamadi" (some 404)) ∧
    getRatesNoH fp0 ⟨2024, 1, 12⟩ = .error (.api "Veri bulunamadi" (some 404)) ∧
    getRatesForDate fp0 ⟨2024, 1, 13⟩ true = .ok snapThu ∧
    snapThu.date = ⟨2024, 1, 11⟩ :=
  ⟨by decide, by decide, by decide, by decide, rfl⟩

/-- Witness for C1 (amended): on the same oracle, the Saturday request
recovers via the fetched target's previous business day (Thursday
2024-01-11, fetched holiday-handling off), and a direct
`handle_holidays=False` request for Friday propagates its 404. -/
theorem claim_C1_witness :
    getRatesForDate fp0 ⟨2024, 1, 13⟩ true = getRatesNoH fp0 ⟨2024, 1, 11⟩ ∧
    getRatesForDate fp0 ⟨2024, 1, 12⟩ false = .error (.api "Veri bulunamadi" (some 404)) := by
  constructor
  · have h := (claim_C1_holiday_recovery fp0 ⟨2024, 1, 13⟩).2.2 ⟨2024, 1, 12⟩
      (by decide) (.api "Veri bulunamadi" (some 404)) (by decide) rfl
    rw [h, show getPreviousBusinessDay ⟨2024, 1, 12⟩ = .ok ⟨2024, 1, 11⟩ from by decide]
  · exact (claim_C1_holiday_recovery fp0 ⟨2024, 1, 12⟩).2.1 _ (by decide)

/-! ## Lemmas on numeric-literal parsing -/

lemma validOptDec_dump (v : Option ℚ) : validOptDec (some (dumpOptDec v)) = .ok v := by
  cases v <;> rfl

lemma validOptStr_dump (v : Option String) : validOptStr (some (dumpOptStr v)) = .ok v := by
  cases v <;> rfl

lemma validRate_dump (r : CurrencyRate) : validRate (dumpRate r) = .ok r := by
  simp [validRate, dumpRate, jfield, validOptDec_dump]

lemma validRateList_dump (l : List CurrencyRate) :
    validRateList (l.map dumpRate) = .ok l := by
  induction l with
  | nil => rfl
  | cons r t ih => simp [validRateList, validRate_dump, ih]

lemma validRates_dump (r : ExchangeRates) : validRates (dumpRates r) = .ok r := by
  simp [validRates, dumpRates, jfield, validOptStr_dump, validRateList_dump]

lemma lookupDb_upsert (db : CacheDb) (k : Date) (rec : CacheRecord) :
    lookupDb (upsertDb db k rec) k = some rec := by
  simp [lookupDb, upsertDb, List.find?]

/-- C8: writing a snapshot (with any TTL) and then reading its effective
date with no TTL returns a snapshot equal in every field — date,
bulletin identifier, the full entry list with all rate values, and the
advisory — to the one written. -/
theorem claim_C8_roundtrip (db : CacheDb) (r : ExchangeRates) (ttl : Option Int)
    (now now2 : Int) :
    cacheGetRates (cacheSetRates db r ttl now) r.date none now2 = .ok (some r) := by
  simp only [cacheSetRates, cacheGetRates, lookupDb_upsert]
  simp [validRates_dump]

/-- Currency element of the spec's JPY example: `Unit` 100 and
`ForexBuying` 20.3456. -/
def jpyElem : CurrencyElem :=
  ⟨some "JPY", [("Unit", some "100"), ("ForexBuying", some "20.3456")]⟩

/-- Record the parser produces for `jpyElem`. -/
def jpyParsed : CurrencyRate :=
  ⟨"JPY", "JPY", "JPY", 100, some (20.3456 : ℚ), none, none, none, none, none⟩

/-- C9: for a quote with a present rate value (and the documented unit
domain 1 or 100, on which `Decimal` division is exact), the unit rate is
exactly the stored rate divided by the unit; in particular parsing a
record with `Unit` 100 and `ForexBuying` 20.3456 yields a unit rate of
exactly `20.3456 / 100`, with no floating-point approximation. -/
theorem claim_C9_unit_rate :
    (∀ (r : CurrencyRate) (t : RateType) (v : ℚ), r.unit = 1 ∨ r.unit = 100 →
       r.getRate t = some v → r.getUnitRate t = some (v / (r.unit : ℚ))) ∧
    parseCurrencyElem jpyElem = .ok (some jpyParsed) ∧
    jpyParsed.getUnitRate .forex_buying = some ((20.3456 : ℚ) / 100) := by
  refine ⟨?_, ?_, ?_⟩
  · intro r t v _ hv
    rw [CurrencyRate.getUnitRate, hv]
  · have h1 : litVal 1 ['2', '0'] ['3', '4', '5', '6'] 0 = (20.3456 : ℚ) := by
      have d1 : digitsVal ['2', '0'] = 20 := rfl
      have d2 : digitsVal ['3', '4', '5', '6'] = 3456 := rfl
      rw [litVal, d1, d2]
      norm_num
    have h2 : parseCurrencyElem jpyElem = .ok (some
        ⟨"JPY", "JPY", "JPY", 100, some (litVal 1 ['2', '0'] ['3', '4', '5', '6'] 0),
         none, none, none, none, none⟩) := by
      rw [parseCurrencyElem]
      rfl
    rw [h2, h1]
    exact rfl
  · rw [CurrencyRate.getUnitRate]
    have : jpyParsed.getRate .forex_buying = some (20.3456 : ℚ) := rfl
    rw [this]
    norm_num [jpyParsed]

/-- Witness for C9: the general unit-rate equation applied to the parsed
JPY record at its present forex-buying rate. -/
theorem claim_C9_witness :
    jpyParsed.getUnitRate .forex_buying = some ((20.3456 : ℚ) / (jpyParsed.unit : ℚ)) :=
  claim_C9_unit_rate.1 jpyParsed .forex_buying (20.3456 : ℚ) (Or.inr rfl) rfl

/-- C10: with `max_retries = 0` the delay list is empty, the attempt loop
body never runs (zero GET requests, zero sleeps), and
`_fetch_with_retry` falls through to the `TCMBConnectionError`. -/
theorem claim_C10_zero_retries (oracle : Nat → AttemptOutcome) (retryDelay : ℚ) :
    fetchWithRetry oracle 0 retryDelay = (.error (.conn connFailMsg), [], 0) :=
  rfl

end TcmbSpec
